import Mathlib

/-!
# Verification of the UGen stub generator

A shallow embedding of `dev/generate-ugen-stubs.py`, a single-pass
syntax-tree walk that renders `.pyi` type-stub text for classes carrying
the `@ugen` decorator.  The Python syntax tree is modelled by the closed
fragment of node categories the tool matches on (class definitions,
assignments, annotated assignments, call expressions, keyword arguments,
constant literals); the standard-library parser itself is an external
collaborator and is not modelled.  Python `str.rstrip`, `str.join`,
f-string conversion and `dict` insertion-order semantics are implemented
directly.
-/

/-- A Python literal constant, as stored in an `ast.Constant` node.
The tool only ever meets booleans, integers, strings and `None`. -/
inductive Value where
  | bool (b : Bool)
  | int (i : Int)
  | str (s : String)
  | none
deriving DecidableEq, Repr

/-- Python truthiness (`bool(v)`) of a literal constant. -/
def pyTruthy : Value → Bool
  | .bool b => b
  | .int i => i != 0
  | .str s => s != ""
  | .none => false

/-- Python `str(v)` of a literal constant, as interpolated by an f-string. -/
def pyStr : Value → String
  | .bool true => "True"
  | .bool false => "False"
  | .int i => toString i
  | .str s => s
  | .none => "None"

/-- Python `repr(v)` of a literal constant, as produced by `ast.unparse`
on a `Constant` node (string escaping is not needed by any input we meet). -/
def pyRepr : Value → String
  | .bool true => "True"
  | .bool false => "False"
  | .int i => toString i
  | .str s => "'" ++ s ++ "'"
  | .none => "None"

/-- The expression fragment the tool pattern-matches on.  A keyword
argument is a pair of its (optional) name and its value expression;
`Expr.other` stands for any expression shape the tool never inspects. -/
inductive Expr where
  | name (id : String)
  | attr (value : Expr) (attrName : String)
  | call (func : Expr) (posArgs : List Expr) (keywords : List (Option String × Expr))
  | constant (value : Value)
  | other
deriving Repr

/-- A Python `dict[str, Any]` restricted to literal-constant values,
with insertion-order semantics. -/
abbrev PyDict := List (String × Value)

/-- Python `d[k] = v`: replace in place when the key is present,
append otherwise. -/
def dictSet (d : PyDict) (k : String) (v : Value) : PyDict :=
  match d with
  | [] => [(k, v)]
  | (k', v') :: rest => if k' = k then (k', v) :: rest else (k', v') :: dictSet rest k v

/-- Python `d.get(k)` (without default): the value bound to `k`, if any. -/
def dictGet (d : PyDict) (k : String) : Option Value :=
  match d with
  | [] => Option.none
  | (k', v) :: rest => if k' = k then some v else dictGet rest k

/-- Truthiness of `d.get(k, False)`: `False` when absent, `bool(v)` when bound. -/
def pyTruthyOpt (v : Option Value) : Bool :=
  match v with
  | some v => pyTruthy v
  | Option.none => false

mutual
/-- The statement fragment the tool pattern-matches on.  `ann` is the
annotation of an annotated assignment (never inspected by the tool);
`other` stands for every other statement shape, none of which can
contain a class definition in the modelled fragment. -/
inductive Stmt where
  | annAssign (target : Expr) (ann : Expr) (value : Option Expr)
  | assign (targets : List Expr) (value : Expr)
  | classDef (cls : ClassDef)
  | other

/-- An `ast.ClassDef` node: name, base-class expressions, decorator
expressions and body statements. -/
inductive ClassDef where
  | mk (name : String) (bases : List Expr) (decoratorList : List Expr) (body : List Stmt)
end

/-- The class's name. -/
def ClassDef.name : ClassDef → String
  | .mk n _ _ _ => n

/-- The class's base-class expressions. -/
def ClassDef.bases : ClassDef → List Expr
  | .mk _ b _ _ => b

/-- The class's decorator expressions. -/
def ClassDef.decoratorList : ClassDef → List Expr
  | .mk _ _ d _ => d

/-- The class's body statements. -/
def ClassDef.body : ClassDef → List Stmt
  | .mk _ _ _ b => b

/-- Python `sep.join(parts)`. -/
def pyJoin (sep : String) : List String → String
  | [] => ""
  | [x] => x
  | x :: rest => x ++ sep ++ pyJoin sep rest

/-- Python `s.rstrip()`: remove all trailing whitespace characters. -/
def pyRstrip (s : String) : String :=
  ⟨(s.data.reverse.dropWhile Char.isWhitespace).reverse⟩

/-- A character allowed in a Python identifier. -/
def isIdentChar (c : Char) : Bool :=
  c.isAlpha || c.isDigit || c = '_'

/-- A nonempty string all of whose characters are identifier characters.
Every name produced by the Python parser satisfies this. -/
def PyIdent (s : String) : Prop :=
  s.data ≠ [] ∧ ∀ c ∈ s.data, isIdentChar c

instance (s : String) : Decidable (PyIdent s) :=
  inferInstanceAs (Decidable (_ ∧ _))

/-- The decorator scan of `visit_ClassDef`: the first decorator that is a
call whose callee is the simple name `ugen`, or the bare simple name
`ugen`.  An attribute reference such as `module.ugen` never matches. -/
def findUgenDecorator : List Expr → Option Expr
  | [] => Option.none
  | d :: rest =>
    match d with
    | .call (.name "ugen") ps kws => some (.call (.name "ugen") ps kws)
    | .name "ugen" => some (.name "ugen")
    | _ => findUgenDecorator rest

/-- The keyword loop of `_parse_decorator_args`: record a keyword argument
only when its name is present (and nonempty, Python truthiness of
`keyword.arg`) and its value is a literal constant. -/
def parseDecoratorArgsLoop (args : PyDict) : List (Option String × Expr) → PyDict
  | [] => args
  | (some k, .constant v) :: rest =>
    if k = "" then parseDecoratorArgsLoop args rest
    else parseDecoratorArgsLoop (dictSet args k v) rest
  | _ :: rest => parseDecoratorArgsLoop args rest

/-- `_parse_decorator_args`: literal keyword arguments of a decorator
call; the empty mapping for a bare (non-call) decorator. -/
def parseDecoratorArgs (decorator : Expr) : PyDict :=
  match decorator with
  | .call _ _ keywords => parseDecoratorArgsLoop [] keywords
  | _ => []

/-- The keyword loop of `_get_unexpanded_arg`: the truthiness of the first
literal constant bound to the keyword `unexpanded`, `False` otherwise. -/
def getUnexpandedArgLoop : List (Option String × Expr) → Bool
  | [] => false
  | (some "unexpanded", .constant v) :: _ => pyTruthy v
  | _ :: rest => getUnexpandedArgLoop rest

/-- `_get_unexpanded_arg` applied to a `param(...)` call expression. -/
def getUnexpandedArg (call : Expr) : Bool :=
  match call with
  | .call _ _ keywords => getUnexpandedArgLoop keywords
  | _ => false

/-- The combined isinstance chain of `_collect_params` on an assigned
value: a `Call` whose `func` is the simple name `param`. -/
def isParamCall : Expr → Bool
  | .call (.name "param") _ _ => true
  | _ => false

/-- The inner loop of `_collect_params` over the targets of a plain
assignment: one entry per `Name` target when the assigned value is a
`param(...)` call. -/
def collectAssignTargets (params : List (String × Bool)) (targets : List Expr)
    (value : Expr) : List (String × Bool) :=
  match targets with
  | [] => params
  | t :: rest =>
    let params' :=
      match t with
      | .name id =>
        if isParamCall value then params ++ [(id, getUnexpandedArg value)] else params
      | _ => params
    collectAssignTargets params' rest value

/-- The statement loop of `_collect_params`: annotated assignments
`name: type = param(...)` and plain assignments `name = param(...)`. -/
def collectParamsLoop (params : List (String × Bool)) : List Stmt → List (String × Bool)
  | [] => params
  | item :: rest =>
    let params' :=
      match item with
      | .annAssign target _ (some value) =>
        if isParamCall value then
          let paramName := match target with | .name id => some id | _ => Option.none
          match paramName with
          | some n => if n = "" then params else params ++ [(n, getUnexpandedArg value)]
          | Option.none => params
        else params
      | .assign targets value => collectAssignTargets params targets value
      | _ => params
    collectParamsLoop params' rest

/-- `_collect_params`: the `(param_name, unexpanded)` pairs declared in a
class body, in body declaration order. -/
def collectParams (node : ClassDef) : List (String × Bool) :=
  collectParamsLoop [] node.body

/-- One constructor keyword parameter of `_generate_ugen_stub`:
`name: UGenVectorInput = ...` for an unexpanded parameter, scalar otherwise. -/
def initParamEntry (p : String × Bool) : String :=
  let typeHint := if p.2 then "UGenVectorInput" else "UGenScalarInput"
  p.1 ++ ": " ++ typeHint ++ " = ..."

/-- The two property-stub lines of `_generate_ugen_stub` for one
parameter: vector result for an unexpanded parameter, scalar otherwise. -/
def accessorLines (p : String × Bool) : List String :=
  let returnType := if p.2 then "UGenVector" else "UGenScalar"
  ["    @property", "    def " ++ p.1 ++ "(self) -> " ++ returnType ++ ": ..."]

/-- One rate-method keyword parameter of `_generate_ugen_stub`. -/
def rateParamEntry (p : String × Bool) : String :=
  p.1 ++ ": UGenRecursiveInput = ..."

/-- The conditional `channel_count` parameter, shared by the constructor
and the rate methods: present iff `is_multichannel` is truthy and
`fixed_channel_count` is not, defaulting the literal to `1`. -/
def channelCountParams (decoratorArgs : PyDict) : List String :=
  let isMultichannel := pyTruthyOpt (dictGet decoratorArgs "is_multichannel")
  let fixedChannelCount := pyTruthyOpt (dictGet decoratorArgs "fixed_channel_count")
  if isMultichannel && !fixedChannelCount then
    ["channel_count: int = " ++ pyStr ((dictGet decoratorArgs "channel_count").getD (.int 1))]
  else []

/-- The `init_params` list of `_generate_ugen_stub`: self, the keyword-only
separator, the calculation rate, the conditional channel count, one entry
per declared parameter, and the keyword catch-all. -/
def initParams (decoratorArgs : PyDict) (params : List (String × Bool)) : List String :=
  ["self", "*", "calculation_rate: CalculationRateLike"]
    ++ channelCountParams decoratorArgs
    ++ params.map initParamEntry
    ++ ["**kwargs: Any"]

/-- The `rate_params` list of `_generate_ugen_stub` for one rate method:
cls, a keyword-only separator when there is at least one parameter, one
entry per declared parameter, and the conditional channel count (after
the parameters, unlike the constructor). -/
def rateParams (decoratorArgs : PyDict) (params : List (String × Bool)) : List String :=
  ["cls"]
    ++ (if params.isEmpty then [] else ["*"])
    ++ params.map rateParamEntry
    ++ channelCountParams decoratorArgs

/-- The rate-method lines of `_generate_ugen_stub` for one rate name:
empty unless the decorator argument for that name is truthy. -/
def rateLines (decoratorArgs : PyDict) (params : List (String × Bool))
    (rateName : String) : List String :=
  if !pyTruthyOpt (dictGet decoratorArgs rateName) then []
  else
    ["    @classmethod",
     "    def " ++ rateName ++ "(" ++ pyJoin ", " (rateParams decoratorArgs params)
       ++ ") -> UGenOperable: ..."]

/-- The line list built by `_generate_ugen_stub`. -/
def generateUgenStubLines (className : String) (decoratorArgs : PyDict)
    (params : List (String × Bool)) : List String :=
  ["class " ++ className ++ "(UGen):",
   "    def __init__(" ++ pyJoin ", " (initParams decoratorArgs params) ++ ") -> None: ..."]
    ++ params.flatMap accessorLines
    ++ ["ar", "kr", "ir", "dr", "new"].flatMap (rateLines decoratorArgs params)

/-- `_generate_ugen_stub`: the stub text for one `@ugen`-decorated class. -/
def generateUgenStub (className : String) (decoratorArgs : PyDict)
    (params : List (String × Bool)) : String :=
  pyJoin "\n" (generateUgenStubLines className decoratorArgs params)

mutual
/-- `ast.unparse` on the expression fragment (used only for attribute
base-class references and never reached at `other`). -/
def unparse : Expr → String
  | .name id => id
  | .attr v a => unparse v ++ "." ++ a
  | .constant v => pyRepr v
  | .call f ps kws =>
    unparse f ++ "(" ++ pyJoin ", " (unparseList ps ++ unparseKeywords kws) ++ ")"
  | .other => ""

/-- `ast.unparse` over positional argument lists. -/
def unparseList : List Expr → List String
  | [] => []
  | e :: rest => unparse e :: unparseList rest

/-- `ast.unparse` over keyword argument lists: `k=v`, or `**v` for a
starred keyword. -/
def unparseKeywords : List (Option String × Expr) → List String
  | [] => []
  | (some k, v) :: rest => (k ++ "=" ++ unparse v) :: unparseKeywords rest
  | (Option.none, v) :: rest => ("**" ++ unparse v) :: unparseKeywords rest
end

/-- The base-class list of `_generate_non_ugen_stub`: `Name` bases by
identifier, `Attribute` bases as `value.attr`, others dropped. -/
def nonUgenBases (bases : List Expr) : List String :=
  bases.filterMap (fun b =>
    match b with
    | .name id => some id
    | .attr v a => some (unparse v ++ "." ++ a)
    | _ => Option.none)

/-- `_generate_non_ugen_stub`: a minimal stub for a class without the
`@ugen` decorator.  In the modelled statement fragment a class body
contains no function definitions, so the method loop finds none and the
body is always the ellipsis placeholder. -/
def generateNonUgenStub (node : ClassDef) : String :=
  let basesStr :=
    if node.bases.isEmpty then ""
    else
      let bases := nonUgenBases node.bases
      if bases.isEmpty then "" else "(" ++ pyJoin ", " bases ++ ")"
  pyJoin "\n" (["class " ++ node.name ++ basesStr ++ ":"] ++ ["    ..."])

/-- The mutable state of `UGenStubGenerator` that `generate` reads:
the rendered `@ugen` stubs and the names of the other classes. -/
structure VisitorState where
  ugenClasses : List String
  nonUgenClasses : List String
deriving DecidableEq, Repr

/-- The fresh state built by `UGenStubGenerator.__init__`. -/
def initialState : VisitorState := ⟨[], []⟩

/-- The non-recursive part of `visit_ClassDef`: render and record a stub
when the class carries the `@ugen` marker, record the name otherwise. -/
def visitClassDefCore (st : VisitorState) (c : ClassDef) : VisitorState :=
  match findUgenDecorator c.decoratorList with
  | some dec =>
    { st with ugenClasses :=
        st.ugenClasses ++ [generateUgenStub c.name (parseDecoratorArgs dec) (collectParams c)] }
  | Option.none =>
    { st with nonUgenClasses := st.nonUgenClasses ++ [c.name] }

mutual
/-- One step of the `ast.NodeVisitor` walk: `visit_ClassDef` handles the
class and then `generic_visit` recurses into its body, so nested class
definitions are visited as well; no other modelled statement contains
statements. -/
def visitStmt (st : VisitorState) : Stmt → VisitorState
  | .classDef (.mk n bs ds body) =>
    visitStmts (visitClassDefCore st (.mk n bs ds body)) body
  | _ => st

/-- The visitor over a statement list (the children of one node). -/
def visitStmts (st : VisitorState) : List Stmt → VisitorState
  | [] => st
  | s :: rest => visitStmts (visitStmt st s) rest
end

/-- The statement children of a statement node, for the breadth-first
`ast.walk`: only a class definition has statement children (its body). -/
def stmtChildren : Stmt → List Stmt
  | .classDef (.mk _ _ _ body) => body
  | _ => []

mutual
/-- Node count of a statement, the termination measure of the
breadth-first walk. -/
def Stmt.nodeSize : Stmt → Nat
  | .classDef c => c.nodeSize + 1
  | _ => 1

/-- Node count of a class definition. -/
def ClassDef.nodeSize : ClassDef → Nat
  | .mk _ _ _ body => queueSize body + 1

/-- Total node count of a statement queue. -/
def queueSize : List Stmt → Nat
  | [] => 0
  | s :: rest => s.nodeSize + queueSize rest
end

/-- The class definition a statement node itself is, if any. -/
def headClasses : Stmt → List ClassDef
  | .classDef c => [c]
  | _ => []

/-- `ast.walk`: breadth-first traversal yielding every class definition in
the tree, in queue order.  Expression children are omitted from the
queue: they never contain class definitions, so the class sequence is
unchanged. -/
def walkClasses : List Stmt → List ClassDef
  | [] => []
  | s :: rest => headClasses s ++ walkClasses (rest ++ stmtChildren s)
termination_by todo => queueSize todo
decreasing_by
  have qa : ∀ a b : List Stmt, queueSize (a ++ b) = queueSize a + queueSize b := by
    intro a b
    induction a with
    | nil => simp [queueSize]
    | cons s rest ih => simp [queueSize, ih]; omega
  have qc : queueSize (stmtChildren item) < item.nodeSize := by
    cases item with
    | classDef c =>
      cases c with
      | mk n bs ds body => simp [stmtChildren, Stmt.nodeSize, ClassDef.nodeSize]; omega
    | annAssign t a v => simp [stmtChildren, queueSize, Stmt.nodeSize]
    | assign t v => simp [stmtChildren, queueSize, Stmt.nodeSize]
    | other => simp [stmtChildren, queueSize, Stmt.nodeSize]
  simp only [qa, queueSize]
  omega

/-- `_collect_non_ugen_stubs`: walk the re-parsed tree and render a stub
for every class definition whose name is among the recorded non-`@ugen`
class names; empty when no such name was recorded. -/
def collectNonUgenStubs (module : List Stmt) (nonUgenClasses : List String) : List String :=
  if nonUgenClasses.isEmpty then []
  else
    (walkClasses module).filterMap (fun c =>
      if nonUgenClasses.contains c.name then some (generateNonUgenStub c) else Option.none)

/-- The fixed import preamble of `generate`. -/
def preambleLines : List String :=
  ["from typing import Any",
   "",
   "from supriya.typing import CalculationRateLike",
   "from supriya.ugens.core import UGen, UGenOperable, UGenRecursiveInput, UGenScalar, UGenScalarInput, UGenVector, UGenVectorInput",
   ""]

/-- `generate`: visit the parsed module, then emit the preamble, the
non-`@ugen` stubs (walk order), and the `@ugen` stubs (visit order), each
stub followed by a blank line; join by newlines, strip trailing
whitespace and append one newline. -/
def generate (module : List Stmt) : String :=
  let st := visitStmts initialState module
  let nonUgenStubs := collectNonUgenStubs module st.nonUgenClasses
  let lines := preambleLines
    ++ nonUgenStubs.flatMap (fun stub => [stub, ""])
    ++ st.ugenClasses.flatMap (fun stub => [stub, ""])
  pyRstrip (pyJoin "\n" lines) ++ "\n"

/-! ## Specification-side definitions

The following definitions restate claim wordings; they are compared with
the source-derived definitions above. -/

/-- The decorator shapes the spec recognizes as the marker: the bare
simple name `ugen`, or a call whose callee is the simple name `ugen`. -/
def isUgenMarker : Expr → Bool
  | .name "ugen" => true
  | .call (.name "ugen") _ _ => true
  | _ => false

/-- Whether the tool treats a class as carrying the marker decorator. -/
def isMarked (c : ClassDef) : Bool :=
  (findUgenDecorator c.decoratorList).isSome

/-- The rendered text of one class, marked or not. -/
def renderClassStub (c : ClassDef) : String :=
  match findUgenDecorator c.decoratorList with
  | some dec => generateUgenStub c.name (parseDecoratorArgs dec) (collectParams c)
  | Option.none => generateNonUgenStub c

/-- Modelled from the spec wording of the stub document: the fixed import
preamble followed by the rendered texts of the file's classes in the
order those classes are declared in the source file, blank-line
separated (and finished like the code finishes its document). -/
def specDeclOrderDoc (module : List Stmt) : String :=
  let stubs := module.filterMap (fun s =>
    match s with
    | .classDef c => some (renderClassStub c)
    | _ => Option.none)
  pyRstrip (pyJoin "\n" (preambleLines ++ stubs.flatMap (fun stub => [stub, ""]))) ++ "\n"

/-- The top-level class definitions of a module, in declaration order. -/
def topClasses (module : List Stmt) : List ClassDef :=
  module.filterMap (fun s =>
    match s with
    | .classDef c => some c
    | _ => Option.none)

mutual
/-- The class definitions one statement contains, in depth-first visit
(declaration) order: the class itself, then its body's classes. -/
def preorderStmt : Stmt → List ClassDef
  | .classDef (.mk n bs ds body) => .mk n bs ds body :: preorderStmts body
  | _ => []

/-- The class definitions of a statement list, in depth-first visit
(declaration) order. -/
def preorderStmts : List Stmt → List ClassDef
  | [] => []
  | s :: rest => preorderStmt s ++ preorderStmts rest
end

/-- The class definitions of a statement forest in breadth-first level
order: the classes of the current level in declaration order, then the
levels below. -/
def bfsLevels : List Stmt → List ClassDef
  | [] => []
  | s :: rest => topClasses (s :: rest) ++ bfsLevels ((s :: rest).flatMap stmtChildren)
termination_by todo => queueSize todo
decreasing_by
  have qa : ∀ a b : List Stmt, queueSize (a ++ b) = queueSize a + queueSize b := by
    intro a b
    induction a with
    | nil => simp [queueSize]
    | cons t ts ih => simp [queueSize, ih]; omega
  have qc : ∀ t : Stmt, queueSize (stmtChildren t) < t.nodeSize := by
    intro t
    cases t with
    | classDef c =>
      cases c with
      | mk n bs ds body => simp [stmtChildren, Stmt.nodeSize, ClassDef.nodeSize]; omega
    | annAssign a b v => simp [stmtChildren, queueSize, Stmt.nodeSize]
    | assign a b => simp [stmtChildren, queueSize, Stmt.nodeSize]
    | other => simp [stmtChildren, queueSize, Stmt.nodeSize]
  have hle : ∀ l : List Stmt, queueSize (l.flatMap stmtChildren) ≤ queueSize l := by
    intro l
    induction l with
    | nil => simp [queueSize]
    | cons t ts ih =>
      rw [List.flatMap_cons, qa]
      have h1 := qc t
      simp only [queueSize] at *
      omega
  have key : ∀ (t : Stmt) (ts : List Stmt),
      queueSize ((t :: ts).flatMap stmtChildren) < queueSize (t :: ts) := by
    intro t ts
    rw [List.flatMap_cons, qa]
    have h1 := qc t
    have h2 := hle ts
    simp only [queueSize]
    omega
  exact key _ _

/-- The parameter entries one class-body statement declares, following the
spec wording: one entry per assigned name of a matching
param-declaration statement. -/
def declaredParamEntries : Stmt → List (String × Bool)
  | .annAssign target _ (some value) =>
    if isParamCall value then
      match target with
      | .name id => if id = "" then [] else [(id, getUnexpandedArg value)]
      | _ => []
    else []
  | .assign targets value =>
    if isParamCall value then
      targets.filterMap (fun t =>
        match t with
        | .name id => some (id, getUnexpandedArg value)
        | _ => Option.none)
    else []
  | _ => []

/-- A keyword argument recorded by the spec wording of
`_parse_decorator_args`: named, nonempty name, literal constant value. -/
def literalKeywordEntry : Option String × Expr → Option (String × Value)
  | (some k, .constant v) => if k = "" then Option.none else some (k, v)
  | _ => Option.none

/-- The `@ugen` stubs a statement list contributes when visited from the
fresh generator state. -/
def ugenStubsOf (stmts : List Stmt) : List String :=
  (visitStmts initialState stmts).ugenClasses

/-- The non-`@ugen` class names a statement list contributes when visited
from the fresh generator state. -/
def nonUgenNamesOf (stmts : List Stmt) : List String :=
  (visitStmts initialState stmts).nonUgenClasses

/-- The `@ugen` stubs one statement contributes. -/
def stmtUgen (s : Stmt) : List String :=
  (visitStmt initialState s).ugenClasses

/-- The non-`@ugen` class names one statement contributes. -/
def stmtNames (s : Stmt) : List String :=
  (visitStmt initialState s).nonUgenClasses

/-- The stub a class itself contributes to the `@ugen` stub list: one
rendered stub when it carries the marker, nothing otherwise. -/
def markedStub (c : ClassDef) : List String :=
  match findUgenDecorator c.decoratorList with
  | some dec => [generateUgenStub c.name (parseDecoratorArgs dec) (collectParams c)]
  | Option.none => []

/-- The name a class itself contributes to the non-`@ugen` name list. -/
def unmarkedName (c : ClassDef) : List String :=
  match findUgenDecorator c.decoratorList with
  | some _ => []
  | Option.none => [c.name]

/-- The opening characters of a rendered rate-method declaration line. -/
def rateMarker (r : String) : List Char :=
  ("    def " ++ r ++ "(cls").data

/-- A module whose first class carries the marker and whose second does
not: the code renders the second class's stub first. -/
def mixedModule : List Stmt :=
  [.classDef (.mk "A" [] [.name "ugen"] [.other]),
   .classDef (.mk "B" [] [] [.other])]

/-- A module with an unmarked top-level class containing a marked nested
class. -/
def nestedModule : List Stmt :=
  [.classDef (.mk "Outer" [] []
    [.classDef (.mk "Inner" [] [.name "ugen"] [.other])])]

/-! ## Helper lemmas about character lists -/

theorem splitAtSep {p : Char → Bool} {a b x y : List Char}
    (ha : ∀ c ∈ a, p c) (hb : ∀ c ∈ b, p c)
    (hx : x.takeWhile p = []) (hy : y.takeWhile p = [])
    (h : a ++ x = b ++ y) : a = b ∧ x = y := by
  have ta : (a ++ x).takeWhile p = a ++ x.takeWhile p := List.takeWhile_append_of_pos ha
  have tb : (b ++ y).takeWhile p = b ++ y.takeWhile p := List.takeWhile_append_of_pos hb
  rw [hx, List.append_nil] at ta
  rw [hy, List.append_nil] at tb
  have hab : a = b := by rw [← ta, ← tb, h]
  exact ⟨hab, List.append_cancel_left (hab ▸ h)⟩

theorem preCancel (l : List Char) {a b : List Char} : l ++ a <+: l ++ b ↔ a <+: b :=
  List.prefix_append_right_inj l

theorem preCons {a b : Char} {l₁ l₂ : List Char} :
    a :: l₁ <+: b :: l₂ ↔ a = b ∧ l₁ <+: l₂ :=
  List.cons_prefix_cons

theorem sufEqOfLen {l₁ l₂ l₃ : List Char} (h : l₂ <:+ l₁ ++ l₃)
    (hl : l₂.length = l₃.length) : l₂ = l₃ := by
  obtain ⟨t, ht⟩ := h
  have hlen := congrArg List.length ht
  simp only [List.length_append] at hlen
  exact List.append_inj_right ht (by omega)

theorem identChar_bne {c : Char} (h : isIdentChar c = true) (d : Char)
    (hd : isIdentChar d = false) : (c != d) = true := by
  rcases eq_or_ne c d with rfl | hne
  · rw [h] at hd; cases hd
  · simpa using hne

theorem dropWhileHeadFalse {p : Char → Bool} :
    ∀ {l : List Char} {c : Char}, (l.dropWhile p).head? = some c → p c = false := by
  intro l
  induction l with
  | nil => intro c h; simp [List.dropWhile] at h
  | cons a t ih =>
    intro c h
    by_cases hp : p a
    · rw [List.dropWhile_cons_of_pos hp] at h
      exact ih h
    · rw [List.dropWhile_cons_of_neg hp] at h
      simp only [List.head?_cons, Option.some.injEq] at h
      subst h
      simpa using hp

/-! ## The visitor appends its findings to the generator state -/

theorem visit_state :
    (∀ (s : Stmt) (st : VisitorState),
      visitStmt st s = ⟨st.ugenClasses ++ stmtUgen s, st.nonUgenClasses ++ stmtNames s⟩)
    ∧ (∀ (stmts : List Stmt) (st : VisitorState),
      visitStmts st stmts =
        ⟨st.ugenClasses ++ ugenStubsOf stmts, st.nonUgenClasses ++ nonUgenNamesOf stmts⟩) := by
  have main := visitStmt.mutual_induct
    (fun _ s => ∀ st', visitStmt st' s =
      ⟨st'.ugenClasses ++ stmtUgen s, st'.nonUgenClasses ++ stmtNames s⟩)
    (fun _ stmts => ∀ st', visitStmts st' stmts =
      ⟨st'.ugenClasses ++ ugenStubsOf stmts, st'.nonUgenClasses ++ nonUgenNamesOf stmts⟩)
    ?_ ?_ ?_ ?_
  · exact ⟨fun s st => main.1 initialState s st, fun stmts st => main.2 initialState stmts st⟩
  · intro st n bs ds body ih st'
    have e : ∀ st₀ : VisitorState, visitStmt st₀ (.classDef (.mk n bs ds body)) =
        visitStmts (visitClassDefCore st₀ (.mk n bs ds body)) body := by
      intro st₀; simp [visitStmt]
    rw [e, ih, stmtUgen, stmtNames, e, ih]
    cases h : findUgenDecorator ds <;>
      simp [visitClassDefCore, h, initialState, ClassDef.decoratorList, List.append_assoc]
  · intro t st hnc st'
    have e : ∀ st₀ : VisitorState, visitStmt st₀ t = st₀ := by
      intro st₀
      cases t with
      | classDef c =>
        cases c with
        | mk n bs ds body => exact (hnc n bs ds body rfl).elim
      | annAssign a b c => simp [visitStmt]
      | assign a b => simp [visitStmt]
      | other => simp [visitStmt]
    rw [e, stmtUgen, stmtNames, e]
    simp [initialState]
  · intro st st'
    simp [visitStmts, ugenStubsOf, nonUgenNamesOf, initialState]
  · intro st item rest ih1 ih2 st'
    have e : ∀ st₀ : VisitorState, visitStmts st₀ (item :: rest) =
        visitStmts (visitStmt st₀ item) rest := by
      intro st₀; simp [visitStmts]
    have hu : ugenStubsOf (item :: rest) = stmtUgen item ++ ugenStubsOf rest := by
      have e' : ugenStubsOf (item :: rest) =
          (visitStmts (visitStmt initialState item) rest).ugenClasses := by
        simp only [ugenStubsOf]
        rw [e]
      rw [e', ih2, ih1, stmtUgen]
      simp [initialState]
    have hn : nonUgenNamesOf (item :: rest) = stmtNames item ++ nonUgenNamesOf rest := by
      have e' : nonUgenNamesOf (item :: rest) =
          (visitStmts (visitStmt initialState item) rest).nonUgenClasses := by
        simp only [nonUgenNamesOf]
        rw [e]
      rw [e', ih2, ih1, stmtNames]
      simp [initialState]
    rw [e, ih2, ih1, hu, hn]
    simp [List.append_assoc]

theorem ugenStubsOf_nil : ugenStubsOf [] = [] := rfl

theorem nonUgenNamesOf_nil : nonUgenNamesOf [] = [] := rfl

theorem ugenStubsOf_cons (s : Stmt) (rest : List Stmt) :
    ugenStubsOf (s :: rest) = stmtUgen s ++ ugenStubsOf rest := by
  have e : visitStmts initialState (s :: rest) =
      visitStmts (visitStmt initialState s) rest := by
    simp [visitStmts]
  rw [ugenStubsOf, e, visit_state.2, stmtUgen]

theorem nonUgenNamesOf_cons (s : Stmt) (rest : List Stmt) :
    nonUgenNamesOf (s :: rest) = stmtNames s ++ nonUgenNamesOf rest := by
  have e : visitStmts initialState (s :: rest) =
      visitStmts (visitStmt initialState s) rest := by
    simp [visitStmts]
  rw [nonUgenNamesOf, e, visit_state.2, stmtNames]

theorem stmtUgen_classDef (c : ClassDef) :
    stmtUgen (.classDef c) = markedStub c ++ ugenStubsOf c.body := by
  cases c with
  | mk n bs ds body =>
    have e : visitStmt initialState (.classDef (.mk n bs ds body)) =
        visitStmts (visitClassDefCore initialState (.mk n bs ds body)) body := by
      simp [visitStmt]
    rw [stmtUgen, e, visit_state.2]
    cases h : findUgenDecorator ds <;>
      simp [markedStub, visitClassDefCore, h, initialState, ClassDef.decoratorList,
        ClassDef.body, ugenStubsOf]

theorem stmtNames_classDef (c : ClassDef) :
    stmtNames (.classDef c) = unmarkedName c ++ nonUgenNamesOf c.body := by
  cases c with
  | mk n bs ds body =>
    have e : visitStmt initialState (.classDef (.mk n bs ds body)) =
        visitStmts (visitClassDefCore initialState (.mk n bs ds body)) body := by
      simp [visitStmt]
    rw [stmtNames, e, visit_state.2]
    cases h : findUgenDecorator ds <;>
      simp [unmarkedName, visitClassDefCore, h, initialState, ClassDef.decoratorList,
        ClassDef.name, ClassDef.body, nonUgenNamesOf]

theorem findUgen_cons (d : Expr) (rest : List Expr) :
    findUgenDecorator (d :: rest) = if isUgenMarker d then some d else findUgenDecorator rest := by
  cases d with
  | name id =>
    by_cases h : id = "ugen"
    · subst h; simp [findUgenDecorator, isUgenMarker]
    · simp [findUgenDecorator, isUgenMarker, h]
  | call f ps kws =>
    cases f with
    | name fid =>
      by_cases h : fid = "ugen"
      · subst h; simp [findUgenDecorator, isUgenMarker]
      · simp [findUgenDecorator, isUgenMarker, h]
    | attr v a => simp [findUgenDecorator, isUgenMarker]
    | call g qs ks => simp [findUgenDecorator, isUgenMarker]
    | constant v => simp [findUgenDecorator, isUgenMarker]
    | other => simp [findUgenDecorator, isUgenMarker]
  | attr v a => simp [findUgenDecorator, isUgenMarker]
  | constant v => simp [findUgenDecorator, isUgenMarker]
  | other => simp [findUgenDecorator, isUgenMarker]

/-- C10: a class is recognized as marked exactly when one of its
decorators is the bare simple name `ugen` or a call whose callee is the
simple name `ugen`; any other decorator shape, in particular an attribute
reference such as `module.ugen` (bare or called), is never recognized. -/
theorem c10_marker_recognition (c : ClassDef) :
    isMarked c = true ↔ ∃ d ∈ c.decoratorList, isUgenMarker d = true := by
  rw [isMarked]
  induction c.decoratorList with
  | nil => simp [findUgenDecorator]
  | cons d rest ih =>
    rw [findUgen_cons]
    by_cases hm : isUgenMarker d
    · simp [hm]
    · simp only [hm, if_false, Bool.false_eq_true, List.mem_cons]
      rw [ih]
      constructor
      · rintro ⟨d', hd', hmm⟩
        exact ⟨d', Or.inr hd', hmm⟩
      · rintro ⟨d', hd' | hd', hmm⟩
        · subst hd'; exact absurd hmm (by simp [hm])
        · exact ⟨d', hd', hmm⟩

/-- C9: stub generation is deterministic — the generator is a pure
function of the parsed module, so two runs over the same unchanged
input produce byte-identical output. -/
theorem c9_deterministic (module : List Stmt) : generate module = generate module := rfl

/-- C5 counterexample: in `nestedModule` the marked class `Inner` is
declared inside the unmarked top-level class `Outer`, yet the walk
produces a stub entry for `Inner` (and records `Outer`'s name), refuting
the claim that a nested class definition never produces a stub entry. -/
theorem c5_counterexample :
    ugenStubsOf nestedModule =
      ["class Inner(UGen):\n    def __init__(self, *, calculation_rate: CalculationRateLike, **kwargs: Any) -> None: ..."]
    ∧ nonUgenNamesOf nestedModule = ["Outer"] := by
  decide

/-- C5 (amended): the visitor recurses into class bodies, so a class
definition nested inside another class is walked too and contributes its
own stub entry (or unmarked-class name), immediately after the enclosing
class's own contribution. -/
theorem c5_nested_classes_contribute (c : ClassDef) :
    ugenStubsOf [Stmt.classDef c] = markedStub c ++ ugenStubsOf c.body
    ∧ nonUgenNamesOf [Stmt.classDef c] = unmarkedName c ++ nonUgenNamesOf c.body := by
  constructor
  · rw [ugenStubsOf_cons, stmtUgen_classDef, ugenStubsOf_nil, List.append_nil]
  · rw [nonUgenNamesOf_cons, stmtNames_classDef, nonUgenNamesOf_nil, List.append_nil]

/-! ## Decorator-argument extraction (C7) -/

theorem dictSet_fresh (d : PyDict) (k : String) (v : Value)
    (h : ∀ p ∈ d, p.1 ≠ k) : dictSet d k v = d ++ [(k, v)] := by
  induction d with
  | nil => simp [dictSet]
  | cons p rest ih =>
    obtain ⟨k', v'⟩ := p
    have hk : k' ≠ k := h (k', v') (by simp)
    simp only [dictSet, hk, if_false]
    rw [ih (fun q hq => h q (by simp [hq]))]
    simp

theorem parseLoop_eq (keywords : List (Option String × Expr)) :
    ∀ args : PyDict,
      (∀ p ∈ keywords.filterMap literalKeywordEntry, ∀ q ∈ args, p.1 ≠ q.1) →
      ((keywords.filterMap literalKeywordEntry).map Prod.fst).Nodup →
      parseDecoratorArgsLoop args keywords = args ++ keywords.filterMap literalKeywordEntry := by
  induction keywords with
  | nil =>
    intro args _ _
    simp [parseDecoratorArgsLoop]
  | cons kw rest ih =>
    intro args hdisj hnodup
    obtain ⟨ko, e⟩ := kw
    cases ko with
    | none =>
      have hskip : parseDecoratorArgsLoop args ((Option.none, e) :: rest) =
          parseDecoratorArgsLoop args rest := by
        cases e <;> simp [parseDecoratorArgsLoop]
      have hfm : ((Option.none, e) :: rest).filterMap literalKeywordEntry =
          rest.filterMap literalKeywordEntry := by
        simp [List.filterMap_cons, literalKeywordEntry]
      rw [hskip, hfm] at *
      exact ih args hdisj hnodup
    | some k =>
      cases e with
      | constant v =>
        by_cases hk : k = ""
        · subst hk
          have hskip : parseDecoratorArgsLoop args ((some "", Expr.constant v) :: rest) =
              parseDecoratorArgsLoop args rest := by
            simp [parseDecoratorArgsLoop]
          have hfm : ((some "", Expr.constant v) :: rest).filterMap literalKeywordEntry =
              rest.filterMap literalKeywordEntry := by
            simp [List.filterMap_cons, literalKeywordEntry]
          rw [hskip, hfm] at *
          exact ih args hdisj hnodup
        · have hfm : ((some k, Expr.constant v) :: rest).filterMap literalKeywordEntry =
              (k, v) :: rest.filterMap literalKeywordEntry := by
            simp [List.filterMap_cons, literalKeywordEntry, hk]
          rw [hfm] at hdisj hnodup
          have hstep : parseDecoratorArgsLoop args ((some k, Expr.constant v) :: rest) =
              parseDecoratorArgsLoop (dictSet args k v) rest := by
            simp [parseDecoratorArgsLoop, hk]
          have hfresh : ∀ p ∈ args, p.1 ≠ k := by
            intro p hp
            exact fun hh => hdisj (k, v) (by simp) p hp hh.symm
          have hset : dictSet args k v = args ++ [(k, v)] := dictSet_fresh args k v hfresh
          simp only [List.map_cons, List.nodup_cons] at hnodup
          have hdisj' : ∀ p ∈ rest.filterMap literalKeywordEntry,
              ∀ q ∈ args ++ [(k, v)], p.1 ≠ q.1 := by
            intro p hp q hq
            rcases List.mem_append.mp hq with hq | hq
            · exact hdisj p (by simp [hp]) q hq
            · simp only [List.mem_singleton] at hq
              subst hq
              intro hh
              have hpk : p.1 = k := hh
              exact hnodup.1 (hpk ▸ List.mem_map_of_mem Prod.fst hp)
          rw [hstep, hset, ih (args ++ [(k, v)]) hdisj' hnodup.2, hfm]
          simp
      | name nm =>
        have hskip : parseDecoratorArgsLoop args ((some k, Expr.name nm) :: rest) =
            parseDecoratorArgsLoop args rest := by
          simp [parseDecoratorArgsLoop]
        have hfm : ((some k, Expr.name nm) :: rest).filterMap literalKeywordEntry =
            rest.filterMap literalKeywordEntry := by
          simp [List.filterMap_cons, literalKeywordEntry]
        rw [hskip, hfm] at *
        exact ih args hdisj hnodup
      | attr v a =>
        have hskip : parseDecoratorArgsLoop args ((some k, Expr.attr v a) :: rest) =
            parseDecoratorArgsLoop args rest := by
          simp [parseDecoratorArgsLoop]
        have hfm : ((some k, Expr.attr v a) :: rest).filterMap literalKeywordEntry =
            rest.filterMap literalKeywordEntry := by
          simp [List.filterMap_cons, literalKeywordEntry]
        rw [hskip, hfm] at *
        exact ih args hdisj hnodup
      | call f ps kws =>
        have hskip : parseDecoratorArgsLoop args ((some k, Expr.call f ps kws) :: rest) =
            parseDecoratorArgsLoop args rest := by
          simp [parseDecoratorArgsLoop]
        have hfm : ((some k, Expr.call f ps kws) :: rest).filterMap literalKeywordEntry =
            rest.filterMap literalKeywordEntry := by
          simp [List.filterMap_cons, literalKeywordEntry]
        rw [hskip, hfm] at *
        exact ih args hdisj hnodup
      | other =>
        have hskip : parseDecoratorArgsLoop args ((some k, Expr.other) :: rest) =
            parseDecoratorArgsLoop args rest := by
          simp [parseDecoratorArgsLoop]
        have hfm : ((some k, Expr.other) :: rest).filterMap literalKeywordEntry =
            rest.filterMap literalKeywordEntry := by
          simp [List.filterMap_cons, literalKeywordEntry]
        rw [hskip, hfm] at *
        exact ih args hdisj hnodup

/-- C7: extracting options from a marker-decorator call never fails and
records exactly the keyword arguments whose values are literal constants,
in keyword order; every keyword whose value is not a literal constant is
silently excluded (the hypothesis that recorded keyword names are
distinct always holds for parsed Python, which rejects duplicate keyword
arguments). -/
theorem c7_non_literal_kwargs_ignored (func : Expr) (posArgs : List Expr)
    (keywords : List (Option String × Expr))
    (hnodup : ((keywords.filterMap literalKeywordEntry).map Prod.fst).Nodup) :
    parseDecoratorArgs (.call func posArgs keywords) =
      keywords.filterMap literalKeywordEntry := by
  have h := parseLoop_eq keywords [] (by simp) hnodup
  simpa [parseDecoratorArgs] using h

/-- Witness for C7 at a concrete decorator call mixing literal and
non-literal keyword arguments. -/
theorem c7_witness :
    ((([(some "ar", Expr.constant (.bool true)), (some "rate", Expr.name "x"),
        (Option.none, Expr.other), (some "ir", Expr.constant (.int 0))]).filterMap
          literalKeywordEntry).map Prod.fst).Nodup
    ∧ parseDecoratorArgs (.call (.name "ugen") []
        [(some "ar", Expr.constant (.bool true)), (some "rate", Expr.name "x"),
         (Option.none, Expr.other), (some "ir", Expr.constant (.int 0))]) =
        ([(some "ar", Expr.constant (.bool true)), (some "rate", Expr.name "x"),
          (Option.none, Expr.other), (some "ir", Expr.constant (.int 0))]).filterMap
            literalKeywordEntry
    ∧ ([(some "ar", Expr.constant (.bool true)), (some "rate", Expr.name "x"),
        (Option.none, Expr.other), (some "ir", Expr.constant (.int 0))]).filterMap
          literalKeywordEntry = [("ar", .bool true), ("ir", .int 0)] :=
  ⟨by decide,
   c7_non_literal_kwargs_ignored (.name "ugen") [] _ (by decide),
   by decide⟩

/-! ## Parameter collection (C6) -/

theorem collectAssignTargets_eq (targets : List Expr) (value : Expr) :
    ∀ params, collectAssignTargets params targets value =
      params ++ (if isParamCall value then
        targets.filterMap (fun t =>
          match t with
          | .name id => some (id, getUnexpandedArg value)
          | _ => Option.none)
      else []) := by
  induction targets with
  | nil =>
    intro params
    by_cases h : isParamCall value <;> simp [collectAssignTargets, h]
  | cons t rest ih =>
    intro params
    cases t with
    | name id =>
      by_cases h : isParamCall value
      · simp only [collectAssignTargets, h, if_true]
        rw [ih]
        simp [h, List.filterMap_cons, List.append_assoc]
      · simp only [collectAssignTargets, h, if_false]
        rw [ih]
        simp [h]
    | attr v a =>
      simp only [collectAssignTargets]
      rw [ih]
      by_cases h : isParamCall value <;> simp [h, List.filterMap_cons]
    | call f ps kws =>
      simp only [collectAssignTargets]
      rw [ih]
      by_cases h : isParamCall value <;> simp [h, List.filterMap_cons]
    | constant v =>
      simp only [collectAssignTargets]
      rw [ih]
      by_cases h : isParamCall value <;> simp [h, List.filterMap_cons]
    | other =>
      simp only [collectAssignTargets]
      rw [ih]
      by_cases h : isParamCall value <;> simp [h, List.filterMap_cons]

theorem collectParamsLoop_eq (body : List Stmt) :
    ∀ params, collectParamsLoop params body = params ++ body.flatMap declaredParamEntries := by
  induction body with
  | nil =>
    intro params
    simp [collectParamsLoop]
  | cons item rest ih =>
    intro params
    cases item with
    | annAssign target ann v =>
      cases v with
      | none => simp [collectParamsLoop, declaredParamEntries, ih]
      | some value =>
        by_cases hpc : isParamCall value
        · cases target with
          | name id =>
            by_cases hid : id = ""
            · subst hid
              simp [collectParamsLoop, declaredParamEntries, hpc, ih]
            · simp [collectParamsLoop, declaredParamEntries, hpc, hid, ih, List.append_assoc]
          | attr v a => simp [collectParamsLoop, declaredParamEntries, hpc, ih]
          | call f ps kws => simp [collectParamsLoop, declaredParamEntries, hpc, ih]
          | constant c => simp [collectParamsLoop, declaredParamEntries, hpc, ih]
          | other => simp [collectParamsLoop, declaredParamEntries, hpc, ih]
        · simp [collectParamsLoop, declaredParamEntries, hpc, ih]
    | assign targets value =>
      have e : collectParamsLoop params (Stmt.assign targets value :: rest) =
          collectParamsLoop (collectAssignTargets params targets value) rest := by
        simp [collectParamsLoop]
      rw [e, collectAssignTargets_eq, ih]
      by_cases hpc : isParamCall value <;>
        simp [declaredParamEntries, hpc, List.append_assoc]
    | classDef c => simp [collectParamsLoop, declaredParamEntries, ih]
    | other => simp [collectParamsLoop, declaredParamEntries, ih]

/-- C6: the extracted parameter list of a class contains one entry per
matching param-declaration statement in body declaration order, with one
entry per assigned name of a multi-target assignment, duplicates
retained; and both the rendered constructor parameters and the rendered
accessors follow that list's order (they sit, mapped in order, inside
the constructor parameter list and the stub line list). -/
theorem c6_params_order (n className : String) (bs ds : List Expr) (body : List Stmt)
    (args : PyDict) :
    collectParams (.mk n bs ds body) = body.flatMap declaredParamEntries
    ∧ (collectParams (.mk n bs ds body)).map initParamEntry <:+:
        initParams args (collectParams (.mk n bs ds body))
    ∧ (collectParams (.mk n bs ds body)).flatMap accessorLines <:+:
        generateUgenStubLines className args (collectParams (.mk n bs ds body)) := by
  refine ⟨?_, ?_, ?_⟩
  · have e : collectParams (.mk n bs ds body) = collectParamsLoop [] body := by
      simp [collectParams, ClassDef.body]
    rw [e, collectParamsLoop_eq]
    simp
  · exact ⟨["self", "*", "calculation_rate: CalculationRateLike"] ++ channelCountParams args,
      ["**kwargs: Any"], by simp [initParams, List.append_assoc]⟩
  · exact ⟨["class " ++ className ++ "(UGen):",
      "    def __init__(" ++ pyJoin ", " (initParams args (collectParams (.mk n bs ds body)))
        ++ ") -> None: ..."],
      ["ar", "kr", "ir", "dr", "new"].flatMap
        (rateLines args (collectParams (.mk n bs ds body))),
      by simp [generateUgenStubLines, List.append_assoc]⟩

/-! ## Scalar/vector type families (C3) -/

theorem strSuffix_append (a b : String) : b.data <:+ (a ++ b).data := by
  rw [String.data_append]
  exact List.suffix_append a.data b.data

theorem strNotSuffix_append {pat tail : String} (a : String)
    (hlen : pat.data.length = tail.data.length) (hne : pat ≠ tail) :
    ¬ pat.data <:+ (a ++ tail).data := by
  intro h
  rw [String.data_append] at h
  exact hne (String.ext (sufEqOfLen h hlen))

/-- C3: for every parameter the tool collects from a marked class's body,
the constructor keyword parameter uses the vector input type exactly when
the unexpanded flag is true and the scalar input type exactly when it is
false, and the rendered read-only accessor's result type mirrors the same
flag — both rendered pieces appear in the stub, so the two sites always
agree. -/
theorem c3_unexpanded_type_families (className : String) (args : PyDict) (c : ClassDef)
    (p : String × Bool) (hp : p ∈ collectParams c) :
    initParamEntry p ∈ initParams args (collectParams c)
    ∧ ((": UGenVectorInput = ...".data <:+ (initParamEntry p).data) ↔ p.2 = true)
    ∧ ((": UGenScalarInput = ...".data <:+ (initParamEntry p).data) ↔ p.2 = false)
    ∧ ∃ defLine : String, accessorLines p = ["    @property", defLine]
        ∧ defLine ∈ generateUgenStubLines className args (collectParams c)
        ∧ (("(self) -> UGenVector: ...".data <:+ defLine.data) ↔ p.2 = true)
        ∧ (("(self) -> UGenScalar: ...".data <:+ defLine.data) ↔ p.2 = false) := by
  obtain ⟨nm, u⟩ := p
  have hmem : initParamEntry (nm, u) ∈ initParams args (collectParams c) := by
    have hm := List.mem_map_of_mem initParamEntry hp
    simp only [initParams, List.mem_append]
    exact Or.inl (Or.inr hm)
  have hacc : ∀ l ∈ accessorLines (nm, u),
      l ∈ generateUgenStubLines className args (collectParams c) := by
    intro l hl
    have : l ∈ (collectParams c).flatMap accessorLines :=
      List.mem_flatMap.mpr ⟨(nm, u), hp, hl⟩
    simp only [generateUgenStubLines, List.mem_append, List.mem_cons]
    exact Or.inl (Or.inr this)
  cases u with
  | true =>
    have e1 : initParamEntry (nm, true) = nm ++ ": UGenVectorInput = ..." := by
      have h : ": " ++ ("UGenVectorInput" ++ " = ...") = ": UGenVectorInput = ..." := by decide
      simp [initParamEntry, String.append_assoc, h]
    have e2 : accessorLines (nm, true) =
        ["    @property", ("    def " ++ nm) ++ "(self) -> UGenVector: ..."] := by
      have h : "(self) -> " ++ ("UGenVector" ++ ": ...") = "(self) -> UGenVector: ..." := by decide
      simp [accessorLines, String.append_assoc, h]
    refine ⟨hmem, ?_, ?_, ("    def " ++ nm) ++ "(self) -> UGenVector: ...", e2, ?_, ?_, ?_⟩
    · simp only [e1]
      exact iff_of_true (strSuffix_append nm _) (by trivial)
    · simp only [e1]
      exact iff_of_false (strNotSuffix_append nm (by decide) (by decide)) (by simp)
    · refine hacc _ ?_
      rw [e2]
      simp
    · exact iff_of_true (strSuffix_append _ _) (by trivial)
    · exact iff_of_false (strNotSuffix_append _ (by decide) (by decide)) (by simp)
  | false =>
    have e1 : initParamEntry (nm, false) = nm ++ ": UGenScalarInput = ..." := by
      have h : ": " ++ ("UGenScalarInput" ++ " = ...") = ": UGenScalarInput = ..." := by decide
      simp [initParamEntry, String.append_assoc, h]
    have e2 : accessorLines (nm, false) =
        ["    @property", ("    def " ++ nm) ++ "(self) -> UGenScalar: ..."] := by
      have h : "(self) -> " ++ ("UGenScalar" ++ ": ...") = "(self) -> UGenScalar: ..." := by decide
      simp [accessorLines, String.append_assoc, h]
    refine ⟨hmem, ?_, ?_, ("    def " ++ nm) ++ "(self) -> UGenScalar: ...", e2, ?_, ?_, ?_⟩
    · simp only [e1]
      exact iff_of_false (strNotSuffix_append nm (by decide) (by decide)) (by simp)
    · simp only [e1]
      exact iff_of_true (strSuffix_append nm _) (by trivial)
    · refine hacc _ ?_
      rw [e2]
      simp
    · exact iff_of_false (strNotSuffix_append _ (by decide) (by decide)) (by simp)
    · exact iff_of_true (strSuffix_append _ _) (by trivial)

/-- Witness for C3 at a concrete marked class declaring one unexpanded
and one plain parameter. -/
theorem c3_witness :
    ("sources", true) ∈ collectParams (.mk "Mix" [] [.name "ugen"]
      [.assign [.name "sources"] (.call (.name "param") []
        [(some "unexpanded", .constant (.bool true))]),
       .assign [.name "gain"] (.call (.name "param") [] [])])
    ∧ initParamEntry ("sources", true) ∈ initParams []
        (collectParams (.mk "Mix" [] [.name "ugen"]
          [.assign [.name "sources"] (.call (.name "param") []
            [(some "unexpanded", .constant (.bool true))]),
           .assign [.name "gain"] (.call (.name "param") [] [])])) :=
  ⟨by decide,
   (c3_unexpanded_type_families "Mix" []
     (.mk "Mix" [] [.name "ugen"]
       [.assign [.name "sources"] (.call (.name "param") []
         [(some "unexpanded", .constant (.bool true))]),
        .assign [.name "gain"] (.call (.name "param") [] [])])
     ("sources", true) (by decide)).1⟩

/-! ## Document termination (C8) -/

theorem pyJoin_cons (sep a : String) (t : List String) :
    ∃ r : String, pyJoin sep (a :: t) = a ++ r := by
  cases t with
  | nil => exact ⟨"", (String.append_empty a).symm⟩
  | cons b t' => exact ⟨sep ++ pyJoin sep (b :: t'), by simp [pyJoin, String.append_assoc]⟩

/-- C8: the generated document is the joined line list — preamble, then
each class stub followed by a blank line — right-stripped of trailing
whitespace with exactly one newline appended; consequently the output
ends in exactly one newline and the character before it is never
whitespace (no trailing blank line, no trailing spaces). -/
theorem c8_trailing_newline (module : List Stmt) :
    generate module =
      pyRstrip (pyJoin "\n" (preambleLines
        ++ (collectNonUgenStubs module (visitStmts initialState module).nonUgenClasses).flatMap
            (fun stub => [stub, ""])
        ++ (visitStmts initialState module).ugenClasses.flatMap (fun stub => [stub, ""]))) ++ "\n"
    ∧ ∃ l : List Char, (generate module).data = l ++ ['\n']
        ∧ l ≠ []
        ∧ ∀ c, l.getLast? = some c → c.isWhitespace = false := by
  refine ⟨rfl, ?_⟩
  set lines := preambleLines
    ++ (collectNonUgenStubs module (visitStmts initialState module).nonUgenClasses).flatMap
        (fun stub => [stub, ""])
    ++ (visitStmts initialState module).ugenClasses.flatMap (fun stub => [stub, ""]) with hlines
  have hgen : generate module = pyRstrip (pyJoin "\n" lines) ++ "\n" := rfl
  refine ⟨(pyRstrip (pyJoin "\n" lines)).data, ?_, ?_, ?_⟩
  · rw [hgen, String.data_append]
  · have hhead : ∃ r : String, pyJoin "\n" lines = "from typing import Any" ++ r := by
      have : lines = "from typing import Any" ::
          (preambleLines.tail
            ++ (collectNonUgenStubs module (visitStmts initialState module).nonUgenClasses).flatMap
                (fun stub => [stub, ""])
            ++ (visitStmts initialState module).ugenClasses.flatMap (fun stub => [stub, ""])) := by
        rw [hlines]
        simp [preambleLines]
      rw [this]
      exact pyJoin_cons "\n" "from typing import Any" _
    obtain ⟨r, hr⟩ := hhead
    intro hnil
    have hm : 'f' ∈ (pyJoin "\n" lines).data := by
      rw [hr, String.data_append]
      exact List.mem_append_left _ (by decide)
    have hdrop : ((pyJoin "\n" lines).data.reverse.dropWhile Char.isWhitespace) = [] := by
      have := congrArg List.reverse hnil
      simpa [pyRstrip] using this
    have hall := List.dropWhile_eq_nil_iff.mp hdrop 'f' (List.mem_reverse.mpr hm)
    exact absurd hall (by decide)
  · intro c hc
    have : ((pyJoin "\n" lines).data.reverse.dropWhile Char.isWhitespace).head? = some c := by
      have e : (pyRstrip (pyJoin "\n" lines)).data =
          ((pyJoin "\n" lines).data.reverse.dropWhile Char.isWhitespace).reverse := rfl
      rw [e, List.getLast?_reverse] at hc
      exact hc
    have := dropWhileHeadFalse this
    exact this

/-! ## The conditional channel_count constructor parameter (C1) -/

theorem identNoColon {s : String} (h : PyIdent s) : ∀ c ∈ s.data, (c != ':') = true :=
  fun c hc => identChar_bne (h.2 c hc) ':' (by decide)

theorem ccstr_split (x b y : String)
    (hb : ∀ c ∈ b.data, (c != ':') = true)
    (hy : y.data.takeWhile (fun c => c != ':') = [])
    (h : "channel_count: int = " ++ x = b ++ y) :
    b.data = "channel_count".data ∧ y.data = ": int = ".data ++ x.data := by
  have e0 : ("channel_count: int = ").data = "channel_count".data ++ ": int = ".data := by decide
  have e : ("channel_count: int = " ++ x).data =
      "channel_count".data ++ (": int = ".data ++ x.data) := by
    rw [String.data_append, e0, List.append_assoc]
  have hdata : "channel_count".data ++ (": int = ".data ++ x.data) = b.data ++ y.data := by
    rw [← e, h, String.data_append]
  have hx : (": int = ".data ++ x.data).takeWhile (fun c => c != ':') = [] := by
    have e1 : (": int = ").data = ':' :: (" int = ").data := by decide
    rw [e1, List.cons_append, List.takeWhile_cons_of_neg (by decide)]
  have := splitAtSep (by decide) hb hx hy hdata
  exact ⟨this.1.symm, this.2.symm⟩

/-- C1: the rendered constructor parameter list contains the
decorator-driven `channel_count: int = <default>` entry — with the
`channel_count` option literal as default, or `1` when that keyword is
absent from the extracted options — exactly when the `is_multichannel`
option is true (truthy) and the `fixed_channel_count` option is false
(falsy or absent); in every other combination of those two flags no such
entry appears. -/
theorem c1_channel_count (args : PyDict) (ps : List (String × Bool))
    (hps : ∀ p ∈ ps, PyIdent p.1) :
    ("channel_count: int = " ++ pyStr ((dictGet args "channel_count").getD (.int 1)))
        ∈ initParams args ps
    ↔ (pyTruthyOpt (dictGet args "is_multichannel") = true
        ∧ pyTruthyOpt (dictGet args "fixed_channel_count") = false) := by
  set x := pyStr ((dictGet args "channel_count").getD (.int 1)) with hx
  constructor
  · intro hmem
    simp only [initParams, List.mem_append, List.mem_cons, List.mem_singleton,
      List.not_mem_nil, or_false, List.mem_map] at hmem
    rcases hmem with (((h | h | h) | h) | h) | h
    · have hs := ccstr_split _ "self" "" (by decide) (by decide)
        (by rw [h, String.append_empty])
      have h2 := congrArg List.length hs.2
      simp only [List.length_append] at h2
      rw [show ("" : String).data.length = 0 from by decide,
        show (": int = ").data.length = 8 from by decide] at h2
      omega
    · have hs := ccstr_split _ "*" "" (by decide) (by decide)
        (by rw [h, String.append_empty])
      have h2 := congrArg List.length hs.2
      simp only [List.length_append] at h2
      rw [show ("" : String).data.length = 0 from by decide,
        show (": int = ").data.length = 8 from by decide] at h2
      omega
    · have hsplit : ("calculation_rate: CalculationRateLike" : String) =
          "calculation_rate" ++ ": CalculationRateLike" := by decide
      have := ccstr_split _ "calculation_rate" ": CalculationRateLike"
        (by decide) (by decide) (by rw [h, hsplit])
      exact absurd this.1 (by decide)
    · by_cases hcond : (pyTruthyOpt (dictGet args "is_multichannel")
          && !pyTruthyOpt (dictGet args "fixed_channel_count")) = true
      · have h1 : pyTruthyOpt (dictGet args "is_multichannel") = true
            ∧ (!pyTruthyOpt (dictGet args "fixed_channel_count")) = true := by
          simpa using hcond
        exact ⟨h1.1, by simpa using h1.2⟩
      · simp only [channelCountParams, hcond, if_false] at h
        exact absurd h (List.not_mem_nil _)
    · obtain ⟨p, hp, hpe⟩ := h
      have hid := hps p hp
      cases hu : p.2 with
      | true =>
        have he : initParamEntry p = p.1 ++ ": UGenVectorInput = ..." := by
          have hc : ": " ++ ("UGenVectorInput" ++ " = ...") = ": UGenVectorInput = ..." := by
            decide
          simp [initParamEntry, hu, String.append_assoc, hc]
        have := ccstr_split _ p.1 ": UGenVectorInput = ..."
          (identNoColon hid) (by decide) (hpe.symm.trans he)
        have hy := this.2
        have hpre : (": int = ").data <+: (": UGenVectorInput = ...").data :=
          ⟨x.data, hy.symm⟩
        exact absurd hpre (by decide)
      | false =>
        have he : initParamEntry p = p.1 ++ ": UGenScalarInput = ..." := by
          have hc : ": " ++ ("UGenScalarInput" ++ " = ...") = ": UGenScalarInput = ..." := by
            decide
          simp [initParamEntry, hu, String.append_assoc, hc]
        have := ccstr_split _ p.1 ": UGenScalarInput = ..."
          (identNoColon hid) (by decide) (hpe.symm.trans he)
        have hy := this.2
        have hpre : (": int = ").data <+: (": UGenScalarInput = ...").data :=
          ⟨x.data, hy.symm⟩
        exact absurd hpre (by decide)
    · have := ccstr_split _ "**kwargs" ": Any" (by decide) (by decide)
        (by rw [h]; decide)
      exact absurd this.1 (by decide)
  · rintro ⟨h1, h2⟩
    have hcond : (pyTruthyOpt (dictGet args "is_multichannel")
        && !pyTruthyOpt (dictGet args "fixed_channel_count")) = true := by
      rw [h1, h2]
      rfl
    simp only [initParams, channelCountParams, hcond, if_true, List.mem_append]
    left
    left
    right
    simp [hx]

/-! ## Rate factory declarations (C2) -/

theorem identNoParen {s : String} (h : PyIdent s) : ∀ c ∈ s.data, (c != '(') = true :=
  fun c hc => identChar_bne (h.2 c hc) '(' (by decide)

theorem preShort {l1 l2 l3 : List Char} (h : l1 <+: l2 ++ l3) (hl : l1.length ≤ l2.length) :
    l1 <+: l2 := by
  obtain ⟨t, ht⟩ := h
  have h1 : (l1 ++ t).take l1.length = l1 := List.take_left l1 t
  rw [ht, List.take_append_of_le_length hl] at h1
  rw [← h1]
  exact List.take_prefix l1.length l2

theorem markerHead (r : String) : ("    d").data <+: rateMarker r := by
  refine ⟨("ef ").data ++ (r.data ++ ("(cls").data), ?_⟩
  rw [rateMarker, String.data_append, String.data_append]
  rw [show ("    def ").data = ("    d").data ++ ("ef ").data from by decide]
  simp [List.append_assoc]

theorem markerStructure {r r' : String}
    (hr : ∀ c ∈ r.data, (c != '(') = true)
    (hr' : ∀ c ∈ r'.data, (c != '(') = true) {tl full : List Char}
    (hfull : full = ("    def ").data ++ (r'.data ++ ('(' :: tl)))
    (h : rateMarker r <+: full) :
    r = r' ∧ ("cls").data <+: tl := by
  subst hfull
  obtain ⟨t, ht⟩ := h
  have e1 : rateMarker r = ("    def ").data ++ (r.data ++ ('(' :: ("cls").data)) := by
    rw [rateMarker, String.data_append, String.data_append]
    rw [show ("(cls").data = '(' :: ("cls").data from by decide]
    simp [List.append_assoc]
  rw [e1, List.append_assoc] at ht
  have ht2 := List.append_cancel_left ht
  rw [List.append_assoc, List.cons_append] at ht2
  have hsplit := splitAtSep hr hr'
    (List.takeWhile_cons_of_neg (by decide)) (List.takeWhile_cons_of_neg (by decide)) ht2
  refine ⟨String.ext hsplit.1, ?_⟩
  have h2 := hsplit.2
  injection h2 with _ h3
  exact ⟨t, h3⟩

theorem rateMarkerPre (r a b : String) :
    rateMarker r <+: ("    def " ++ r ++ "(" ++ ("cls" ++ a) ++ b).data := by
  refine ⟨a.data ++ b.data, ?_⟩
  rw [rateMarker]
  simp only [String.data_append, List.append_assoc]
  simp

/-- C2 counterexample: with the decorator keyword `ar=1` — a literal that
is not exactly `True` — the rendered stub still contains the `ar` rate
factory declaration, because the code tests Python truthiness rather
than identity with `True`. -/
theorem c2_counterexample :
    dictGet (parseDecoratorArgs (.call (.name "ugen") []
        [(some "ar", .constant (.int 1))])) "ar" ≠ some (Value.bool true)
    ∧ "    def ar(cls) -> UGenOperable: ..."
        ∈ generateUgenStubLines "X"
          (parseDecoratorArgs (.call (.name "ugen") [] [(some "ar", .constant (.int 1))])) [] := by
  decide

/-- C2 (amended): for each of the five rate names, the rendered stub
contains a class-level factory declaration for that rate exactly when the
decorator's keyword argument for that name is a truthy literal (Python
truthiness of the extracted option); an absent keyword or a falsy literal
yields no factory. -/
theorem c2_rate_factories (className : String) (args : PyDict) (ps : List (String × Bool))
    (r : String) (hr : r ∈ ["ar", "kr", "ir", "dr", "new"])
    (hps : ∀ p ∈ ps, PyIdent p.1) :
    (∃ line ∈ generateUgenStubLines className args ps, rateMarker r <+: line.data)
    ↔ pyTruthyOpt (dictGet args r) = true := by
  have hnp : ∀ s : String, s ∈ ["ar", "kr", "ir", "dr", "new"] →
      ∀ c ∈ s.data, (c != '(') = true := by decide
  have hni : ∀ s : String, s ∈ ["ar", "kr", "ir", "dr", "new"] → s ≠ "__init__" := by decide
  constructor
  · rintro ⟨line, hline, hpre⟩
    simp only [generateUgenStubLines, List.cons_append, List.nil_append, List.mem_cons,
      List.mem_append, List.mem_flatMap] at hline
    rcases hline with h | h | h | h
    · subst h
      have h5 := (markerHead r).trans hpre
      rw [String.append_assoc, String.data_append] at h5
      have := preShort h5 (by decide)
      exact absurd this (by decide)
    · subst h
      have hfull : ("    def __init__(" ++ pyJoin ", " (initParams args ps)
          ++ ") -> None: ...").data =
          ("    def ").data ++ (("__init__" : String).data
            ++ ('(' :: ((pyJoin ", " (initParams args ps)).data ++ (") -> None: ...").data))) := by
        simp only [String.data_append, List.append_assoc]
        simp
      have := markerStructure (hnp r hr) (by decide) hfull hpre
      exact absurd this.1 (hni r hr)
    · obtain ⟨p, hp, hl⟩ := h
      simp only [accessorLines, List.mem_cons, List.mem_singleton, List.not_mem_nil,
        or_false] at hl
      rcases hl with h | h
      · subst h
        have h5 := (markerHead r).trans hpre
        exact absurd h5 (by decide)
      · subst h
        have hfull : ("    def " ++ p.1 ++ "(self) -> "
            ++ (if p.2 then "UGenVector" else "UGenScalar") ++ ": ...").data =
            ("    def ").data ++ (p.1.data
              ++ ('(' :: (("self) -> ").data
                ++ (((if p.2 then "UGenVector" else "UGenScalar") : String).data
                  ++ (": ...").data)))) := by
          simp only [String.data_append, List.append_assoc]
          simp
        have hm := markerStructure (hnp r hr) (identNoParen (hps p hp)) hfull hpre
        have hcls := hm.2
        rw [show ("self) -> ").data = 's' :: ("elf) -> ").data from by decide,
          List.cons_append,
          show ("cls").data = 'c' :: ("ls").data from by decide] at hcls
        exact absurd (preCons.mp hcls).1 (by decide)
    · obtain ⟨r', hr', hl⟩ := h
      have hrmem : r' ∈ (["ar", "kr", "ir", "dr", "new"] : List String) := by simpa using hr'
      cases htr0 : pyTruthyOpt (dictGet args r') with
      | false =>
        simp only [rateLines, htr0, Bool.not_false, if_true] at hl
        exact absurd hl (List.not_mem_nil _)
      | true =>
        simp only [rateLines, htr0, Bool.not_true, Bool.false_eq_true, if_false,
          List.mem_cons, List.mem_singleton, List.not_mem_nil, or_false] at hl
        rcases hl with h | h
        · subst h
          have h5 := (markerHead r).trans hpre
          exact absurd h5 (by decide)
        · subst h
          have hfull : ("    def " ++ r' ++ "(" ++ pyJoin ", " (rateParams args ps)
              ++ ") -> UGenOperable: ...").data =
              ("    def ").data ++ (r'.data
                ++ ('(' :: ((pyJoin ", " (rateParams args ps)).data
                  ++ (") -> UGenOperable: ...").data))) := by
            simp only [String.data_append, List.append_assoc]
            simp
          have hm := markerStructure (hnp r hr) (hnp r' hrmem) hfull hpre
          rw [hm.1]
          exact htr0
  · intro htr
    have hcons : rateParams args ps = "cls" ::
        ((if ps.isEmpty then [] else ["*"]) ++ ps.map rateParamEntry
          ++ channelCountParams args) := by
      simp [rateParams]
    obtain ⟨rr, hrr⟩ := pyJoin_cons ", " "cls"
      ((if ps.isEmpty then [] else ["*"]) ++ ps.map rateParamEntry ++ channelCountParams args)
    refine ⟨"    def " ++ r ++ "(" ++ pyJoin ", " (rateParams args ps)
      ++ ") -> UGenOperable: ...", ?_, ?_⟩
    · simp only [generateUgenStubLines, List.cons_append, List.nil_append, List.mem_cons,
        List.mem_append, List.mem_flatMap]
      refine Or.inr (Or.inr (Or.inr ⟨r, by simpa using hr, ?_⟩))
      simp [rateLines, htr]
    · rw [hcons, hrr]
      exact rateMarkerPre r rr ") -> UGenOperable: ..."

/-- Witness for C2 at the `ar` rate with a truthy option and one
parameter. -/
theorem c2_witness :
    ("ar" : String) ∈ (["ar", "kr", "ir", "dr", "new"] : List String)
    ∧ (∀ p ∈ [(("frequency" : String), false)], PyIdent p.1)
    ∧ ((∃ line ∈ generateUgenStubLines "SinOsc" [("ar", Value.bool true)]
          [("frequency", false)], rateMarker "ar" <+: line.data)
        ↔ pyTruthyOpt (dictGet [("ar", Value.bool true)] "ar") = true) :=
  ⟨by decide, by decide,
   c2_rate_factories "SinOsc" [("ar", Value.bool true)] [("frequency", false)] "ar"
     (by decide) (by decide)⟩

/-- Witness for C1 at a concrete multichannel decorator option set. -/
theorem c1_witness :
    (∀ p ∈ [(("frequency" : String), false)], PyIdent p.1)
    ∧ (("channel_count: int = "
          ++ pyStr ((dictGet [("is_multichannel", Value.bool true)] "channel_count").getD
            (.int 1)))
        ∈ initParams [("is_multichannel", Value.bool true)] [("frequency", false)]
      ↔ (pyTruthyOpt (dictGet [("is_multichannel", Value.bool true)] "is_multichannel") = true
        ∧ pyTruthyOpt (dictGet [("is_multichannel", Value.bool true)] "fixed_channel_count")
            = false)) :=
  ⟨by decide,
   c1_channel_count [("is_multichannel", Value.bool true)] [("frequency", false)] (by decide)⟩

/-! ## Document ordering (C4) -/

theorem topClasses_cons (s : Stmt) (rest : List Stmt) :
    topClasses (s :: rest) = headClasses s ++ topClasses rest := by
  cases s <;> simp [topClasses, headClasses]

theorem topClasses_append (a b : List Stmt) :
    topClasses (a ++ b) = topClasses a ++ topClasses b := by
  simp [topClasses, List.filterMap_append]

set_option maxRecDepth 4000 in
/-- C4 counterexample: in `mixedModule` the marked class `A` is declared
before the unmarked class `B`, yet the generated document places `B`'s
stub first, so the document is not the preamble followed by the classes'
stubs in declaration order. -/
theorem c4_counterexample : generate mixedModule ≠ specDeclOrderDoc mixedModule := by
  have hw : walkClasses mixedModule =
      [.mk "A" [] [.name "ugen"] [.other], .mk "B" [] [] [.other]] := by
    simp [mixedModule, walkClasses, headClasses, stmtChildren]
  have hc : collectNonUgenStubs mixedModule ["B"] = ["class B:\n    ..."] := by
    simp [collectNonUgenStubs, hw]
    decide
  have e : generate mixedModule = pyRstrip (pyJoin "\n" (preambleLines
      ++ (collectNonUgenStubs mixedModule
          (visitStmts initialState mixedModule).nonUgenClasses).flatMap
          (fun stub => [stub, ""])
      ++ (visitStmts initialState mixedModule).ugenClasses.flatMap
          (fun stub => [stub, ""]))) ++ "\n" := rfl
  rw [e, show (visitStmts initialState mixedModule).nonUgenClasses = ["B"] from by decide, hc]
  decide

theorem preorder_contrib :
    (∀ s : Stmt,
      stmtUgen s = ((preorderStmt s).filter isMarked).map renderClassStub
      ∧ stmtNames s = ((preorderStmt s).filter (fun c => !isMarked c)).map ClassDef.name)
    ∧ ∀ l : List Stmt,
      ugenStubsOf l = ((preorderStmts l).filter isMarked).map renderClassStub
      ∧ nonUgenNamesOf l =
          ((preorderStmts l).filter (fun c => !isMarked c)).map ClassDef.name := by
  refine preorderStmt.mutual_induct
    (fun s => stmtUgen s = ((preorderStmt s).filter isMarked).map renderClassStub
      ∧ stmtNames s = ((preorderStmt s).filter (fun c => !isMarked c)).map ClassDef.name)
    (fun l => ugenStubsOf l = ((preorderStmts l).filter isMarked).map renderClassStub
      ∧ nonUgenNamesOf l =
          ((preorderStmts l).filter (fun c => !isMarked c)).map ClassDef.name)
    ?_ ?_ ?_ ?_
  · intro n bs ds body ih
    constructor
    · rw [stmtUgen_classDef]
      simp only [ClassDef.body]
      rw [ih.1]
      cases h : findUgenDecorator ds with
      | some dec =>
        simp [preorderStmt, markedStub, h, isMarked, renderClassStub,
          ClassDef.decoratorList, ClassDef.name, List.filter_cons]
      | none =>
        simp [preorderStmt, markedStub, h, isMarked, ClassDef.decoratorList,
          List.filter_cons]
    · rw [stmtNames_classDef]
      simp only [ClassDef.body]
      rw [ih.2]
      cases h : findUgenDecorator ds with
      | some dec =>
        simp [preorderStmt, unmarkedName, h, isMarked, ClassDef.decoratorList,
          List.filter_cons]
      | none =>
        simp [preorderStmt, unmarkedName, h, isMarked, ClassDef.decoratorList,
          ClassDef.name, List.filter_cons]
  · intro t hnc
    have e : preorderStmt t = [] := by
      cases t with
      | classDef c =>
        cases c with
        | mk n bs ds body => exact (hnc n bs ds body rfl).elim
      | annAssign a b v => rfl
      | assign a b => rfl
      | other => rfl
    have e2 : stmtUgen t = [] ∧ stmtNames t = [] := by
      cases t with
      | classDef c =>
        cases c with
        | mk n bs ds body => exact (hnc n bs ds body rfl).elim
      | annAssign a b v =>
        exact ⟨by simp [stmtUgen, visitStmt, initialState],
          by simp [stmtNames, visitStmt, initialState]⟩
      | assign a b =>
        exact ⟨by simp [stmtUgen, visitStmt, initialState],
          by simp [stmtNames, visitStmt, initialState]⟩
      | other =>
        exact ⟨by simp [stmtUgen, visitStmt, initialState],
          by simp [stmtNames, visitStmt, initialState]⟩
    exact ⟨by rw [e2.1, e]; rfl, by rw [e2.2, e]; rfl⟩
  · exact ⟨rfl, rfl⟩
  · intro item rest ih1 ih2
    constructor
    · rw [ugenStubsOf_cons, ih1.1, ih2.1]
      simp [preorderStmts, List.filter_append]
    · rw [nonUgenNamesOf_cons, ih1.2, ih2.2]
      simp [preorderStmts, List.filter_append]

theorem filterMapIf (l : List ClassDef) (p : ClassDef → Bool) (f : ClassDef → String) :
    l.filterMap (fun c => if p c then some (f c) else Option.none) = (l.filter p).map f := by
  induction l with
  | nil => rfl
  | cons c rest ih =>
    by_cases h : p c <;> simp [List.filterMap_cons, List.filter_cons, h, ih]

theorem collect_eq (module : List Stmt) (names : List String) :
    collectNonUgenStubs module names =
      ((walkClasses module).filter (fun c => names.contains c.name)).map
        generateNonUgenStub := by
  by_cases h : names.isEmpty = true
  · have hn : names = [] := List.isEmpty_iff.mp h
    subst hn
    have e1 : collectNonUgenStubs module [] = [] := by simp [collectNonUgenStubs]
    have e2 : ∀ l : List ClassDef,
        l.filter (fun c => ([] : List String).contains c.name) = [] := by
      intro l
      induction l with
      | nil => rfl
      | cons c r ih => simp [List.filter_cons, ih]
    rw [e1, e2]
    rfl
  · simp only [collectNonUgenStubs, h, if_false]
    exact filterMapIf _ _ _

theorem walk_shift (a : List Stmt) : ∀ b : List Stmt,
    walkClasses (a ++ b) = topClasses a ++ walkClasses (b ++ a.flatMap stmtChildren) := by
  induction a with
  | nil =>
    intro b
    simp [topClasses]
  | cons s a' ih =>
    intro b
    have e : walkClasses ((s :: a') ++ b) =
        headClasses s ++ walkClasses ((a' ++ b) ++ stmtChildren s) := by
      rw [List.cons_append, walkClasses]
    rw [e, List.append_assoc, ih (b ++ stmtChildren s), topClasses_cons]
    simp [List.flatMap_cons, List.append_assoc]

theorem walk_eq_bfsLevels (todo : List Stmt) : walkClasses todo = bfsLevels todo := by
  induction todo using bfsLevels.induct with
  | case1 => rw [walkClasses, bfsLevels]
  | case2 s rest ih =>
    have h1 := walk_shift (s :: rest) []
    rw [List.append_nil, List.nil_append] at h1
    rw [h1, ih, bfsLevels]

/-- C4 (amended): for every module, the stub document is the fixed import
preamble, then one plain (non-ugen) stub for every class definition at
any nesting depth whose name equals the name of some class without the
marker, taken in breadth-first level order of the tree, then the ugen
stub of every marked class in depth-first visit (declaration) order —
each stub followed by a blank line, right-stripped with one newline
appended.  The single interleaved source declaration order is not
preserved across the marked/unmarked split. -/
theorem c4_document_order (module : List Stmt) :
    generate module =
      pyRstrip (pyJoin "\n" (preambleLines
        ++ ((bfsLevels module).filter (fun c =>
            (((preorderStmts module).filter (fun c' => !isMarked c')).map
              ClassDef.name).contains c.name)).flatMap
            (fun c => [generateNonUgenStub c, ""])
        ++ ((preorderStmts module).filter isMarked).flatMap
            (fun c => [renderClassStub c, ""]))) ++ "\n" := by
  have e : generate module = pyRstrip (pyJoin "\n" (preambleLines
      ++ (collectNonUgenStubs module (nonUgenNamesOf module)).flatMap (fun stub => [stub, ""])
      ++ (ugenStubsOf module).flatMap (fun stub => [stub, ""]))) ++ "\n" := rfl
  rw [e, (preorder_contrib.2 module).1, (preorder_contrib.2 module).2, collect_eq,
    walk_eq_bfsLevels, List.flatMap_map, List.flatMap_map]
